import Mathlib

/-!
Verification of the feedback persistence and aggregation layer of a small
feedback-dashboard application (src/app.py).

The backing store is a spreadsheet-like table reached through
`get_all_values` (all rows including the header) and `append_row`.
We embed the table as `List (List String)` — exactly the shape
`get_all_values` returns — and translate the Python functions
`read_feedbacks_from_sheet`, `append_feedback_to_sheet`, the submission
controller inside the `feedback_form` block, the recent-feed projection
`df_show`, and the word-cloud corpus construction `all_text` into Lean
functions over that representation.
-/

namespace Feedback

/-- One stored feedback entry: the three columns of the sheet, in the
order the app presents them (`expected = ["timestamp", "rating", "comment"]`). -/
structure Record where
  timestamp : String
  rating : Int
  comment : String
deriving DecidableEq, Repr

/-- The full contents of the backing sheet, as returned by
`ws.get_all_values()`: every row including the header row. -/
abbrev Table := List (List String)

/-- Whitespace in the sense of Python `str.strip()` / `str.split()`
(ASCII range). -/
def isPyWs (c : Char) : Bool :=
  c = ' ' || c = '\t' || c = '\n' || c = '\r' || c = '\x0b' || c = '\x0c'

/-- Remove trailing whitespace characters (the right half of Python
`str.strip()`). -/
def dropRightWs : List Char → List Char
  | [] => []
  | c :: t =>
    let r := dropRightWs t
    if r = [] && isPyWs c then [] else c :: r

/-- Remove leading and trailing whitespace from a character list. -/
def stripList (l : List Char) : List Char :=
  dropRightWs (l.dropWhile isPyWs)

/-- Python `s.strip()`. -/
def pyStrip (s : String) : String :=
  String.mk (stripList s.data)

/-- Numeric value of a digit string, base 10. -/
def digitsVal (cs : List Char) : Nat :=
  cs.foldl (fun a c => a * 10 + (c.toNat - 48)) 0

/-- Lowercase an ASCII letter, leave everything else unchanged. -/
def lowerChar (c : Char) : Char :=
  if 65 ≤ c.toNat && c.toNat ≤ 90 then Char.ofNat (c.toNat + 32) else c

/-- Outcome of a successful `pd.to_numeric` string parse: a finite value
(already truncated toward zero, as the later `astype(int)` does) or an
IEEE infinity. `NaN` — the coerced result of an unparseable cell — is
represented as `none` one level up. -/
inductive PdNum where
  | finite (v : Int)
  | posInf
  | negInf
deriving DecidableEq, Repr

def PdNum.neg : PdNum → PdNum
  | .finite v => .finite (-v)
  | .posInf => .negInf
  | .negInf => .posInf

/-- Parse an unsigned decimal mantissa `digits [. digits]` (at least one
digit); returns the digit string read as one integer together with the
number of fractional digits. -/
def parseDecimal (cs : List Char) : Option (Nat × Nat) :=
  let intPart := cs.takeWhile Char.isDigit
  let rest := cs.dropWhile Char.isDigit
  match rest with
  | [] => if intPart.isEmpty then none else some (digitsVal intPart, 0)
  | '.' :: frac =>
    if frac.all Char.isDigit && !(intPart.isEmpty && frac.isEmpty) then
      some (digitsVal (intPart ++ frac), frac.length)
    else none
  | _ => none

/-- Parse an optionally signed exponent. -/
def parseExp (cs : List Char) : Option Int :=
  match cs with
  | '-' :: ds => if !ds.isEmpty && ds.all Char.isDigit then some (-(digitsVal ds : Int)) else none
  | '+' :: ds => if !ds.isEmpty && ds.all Char.isDigit then some ((digitsVal ds : Int)) else none
  | ds => if !ds.isEmpty && ds.all Char.isDigit then some ((digitsVal ds : Int)) else none

/-- Parse an unsigned numeral with optional fractional part and optional
exponent into `(n, scale)` with exact value `n * 10 ^ scale`. -/
def parseMagnitude (cs : List Char) : Option (Nat × Int) :=
  let mant := cs.takeWhile (fun c => !(c = 'e'))
  let rest := cs.dropWhile (fun c => !(c = 'e'))
  match parseDecimal mant with
  | none => none
  | some (n, f) =>
    match rest with
    | [] => some (n, -(f : Int))
    | _ :: expPart =>
      match parseExp expPart with
      | some e => some (n, e - f)
      | none => none

/-- Smallest magnitude that a float64 conversion rounds to infinity
(the midpoint between the largest finite double and 2^1024; values at or
above it round to `inf`, which is how `"1e999"` becomes infinite). -/
def floatOverflowBound : Nat := 2 ^ 1024 - 2 ^ 970

/-- Does the exact value `n * 10 ^ scale` overflow a float64 to infinity? -/
def magIsInf (n : Nat) (scale : Int) : Bool :=
  if 0 ≤ scale then decide (floatOverflowBound ≤ n * 10 ^ scale.toNat)
  else decide (floatOverflowBound * 10 ^ (-scale).toNat ≤ n)

/-- Exact truncation of `n * 10 ^ scale` (magnitude, toward zero). -/
def magTrunc (n : Nat) (scale : Int) : Nat :=
  if 0 ≤ scale then n * 10 ^ scale.toNat else n / 10 ^ (-scale).toNat

/-- Parse an unsigned lowercased cell: the infinity and nan literals float
conversion accepts, else a decimal numeral with optional exponent,
classified infinite when it overflows the float64 range. The mantissa is
kept exact rather than rounded to the nearest double — the rounding of
borderline mantissas is not modelled. -/
def parseUnsignedNum (cs : List Char) : Option PdNum :=
  if cs = ['i', 'n', 'f'] || cs = ['i', 'n', 'f', 'i', 'n', 'i', 't', 'y'] then some .posInf
  else if cs = ['n', 'a', 'n'] then none
  else
    match parseMagnitude cs with
    | none => none
    | some (n, scale) =>
      if magIsInf n scale then some .posInf
      else some (.finite (magTrunc n scale))

/-- `pd.to_numeric(s, errors="coerce")` on one cell, followed by the exact
truncation the later `astype(int)` performs on finite values: an
optionally signed decimal numeral with optional exponent, the infinity
literals, surrounding whitespace tolerated, case-insensitive; `none`
plays the role of `NaN` (the coerced result). -/
def toNumericQ (s : String) : Option PdNum :=
  match (stripList s.data).map lowerChar with
  | '-' :: rest => (parseUnsignedNum rest).map PdNum.neg
  | '+' :: rest => parseUnsignedNum rest
  | cs => parseUnsignedNum cs

/-- The rating normalization on read:
`pd.to_numeric(df["rating"], errors="coerce").fillna(0).astype(int)` —
parse failures become `0`. On a non-finite parse the real cast raises;
that path is modelled in `read_feedbacks_result`, and this function gives
the value used on the non-raising domain. -/
def toRating (s : String) : Int :=
  match toNumericQ s with
  | some (.finite v) => v
  | _ => 0

/-- Position of a column name in the header row (`df.columns`), first
occurrence. -/
def colIndex (name : String) : List String → Option Nat
  | [] => none
  | h :: t => if h = name then some 0 else (colIndex name t).map (· + 1)

/-- Value of a named column in a data row; an absent column is
synthesized as `""` (the `df[col] = ""` branch of the source). -/
def getCol (hdr row : List String) (name : String) : String :=
  match colIndex name hdr with
  | some i => row.getD i ""
  | none => ""

/-- One row of `df[expected]` after normalization: the three expected
columns looked up by name, rating parsed to an integer. -/
def mkRecord (hdr row : List String) : Record :=
  { timestamp := getCol hdr row "timestamp"
    rating := toRating (getCol hdr row "rating")
    comment := getCol hdr row "comment" }

/-- `read_feedbacks_from_sheet` (src/app.py lines 70-87): read all rows,
return empty on an empty or header-only sheet, otherwise normalize every
data row against the header row. This is the sequence the read returns
when it does not raise; the reachable exception paths of lines 79-87 (a
duplicated rating header column, a rating cell parsing to an infinity)
are modelled by `read_feedbacks_result` below, which agrees with this
function on its success domain. -/
def read_feedbacks_from_sheet (all_values : Table) : List Record :=
  if all_values.length ≤ 1 then []
  else
    match all_values with
    | [] => []
    | hdr :: rows => rows.map (mkRecord hdr)

/-- `append_feedback_to_sheet` (src/app.py lines 89-96): one
`append_row([ts, int(rating), comment])` call; `ts` stands for the
`datetime.utcnow().isoformat()` stamp taken at call time. -/
def append_feedback_to_sheet (all_values : Table) (ts : String) (rating : Int)
    (comment : String) : Table :=
  all_values ++ [[ts, toString rating, comment]]

/-- The exceptions the read path can raise: `df["rating"]` on a header
with a duplicated `rating` column is a DataFrame and `pd.to_numeric`
raises a TypeError on it; a rating cell whose numeric value is an IEEE
infinity survives `errors="coerce"` and `fillna(0)` and makes
`astype(int)` raise on the non-finite value. -/
inductive ReadError where
  | duplicateRatingColumns
  | nonFiniteRating
deriving DecidableEq, Repr

/-- Does this cell parse to an IEEE infinity? -/
def isInfCell (s : String) : Bool :=
  match toNumericQ s with
  | some .posInf => true
  | some .negInf => true
  | _ => false

/-- The full read of src/app.py lines 70-87 with its reachable exception
paths: empty/header-only sheets return the empty sequence before any
pandas code runs; then a duplicated `rating` header column raises, then a
rating cell parsing to an infinity raises (the column-wide `astype(int)`
fails if any cell is non-finite), and otherwise the read returns the
normalized rows of `read_feedbacks_from_sheet`. -/
def read_feedbacks_result (all_values : Table) : Except ReadError (List Record) :=
  if all_values.length ≤ 1 then .ok []
  else
    match all_values with
    | [] => .ok []
    | hdr :: rows =>
      if 2 ≤ hdr.count "rating" then .error .duplicateRatingColumns
      else if rows.any (fun row => isInfCell (getCol hdr row "rating")) then
        .error .nonFiniteRating
      else .ok (rows.map (mkRecord hdr))

theorem read_nil : read_feedbacks_from_sheet [] = [] := rfl

theorem read_single (hdr : List String) : read_feedbacks_from_sheet [hdr] = [] := rfl

theorem read_cons (hdr row : List String) (rows : Table) :
    read_feedbacks_from_sheet (hdr :: row :: rows) = (row :: rows).map (mkRecord hdr) := by
  have h : ¬ (hdr :: row :: rows).length ≤ 1 := by
    simp [List.length_cons]
  simp [read_feedbacks_from_sheet, h]

/-- The standard header row of the sheet. -/
def stdHeader : List String := ["timestamp", "rating", "comment"]

theorem mkRecord_std (t x c : String) :
    mkRecord stdHeader [t, x, c] = { timestamp := t, rating := toRating x, comment := c } := rfl

set_option maxRecDepth 8000 in
theorem toRating_toString (r : Int) (h1 : 1 ≤ r) (h5 : r ≤ 5) :
    toRating (toString r) = r := by
  interval_cases r <;> decide

/-- C8: `readAll` on an empty backing collection, or one containing only a
header row with no data rows, returns an empty sequence of Records and
never an error (the function is total and hits the early-return branch). -/
theorem C8_readAll_empty_or_header_only :
    read_feedbacks_from_sheet [] = [] ∧
      ∀ hdr : List String, read_feedbacks_from_sheet [hdr] = [] :=
  ⟨rfl, fun _ => rfl⟩

/-- C1: for every rating in [1,5] and every comment that is non-empty after
trimming, `append` then `readAll` yields exactly the old sequence plus one
new Record whose rating and comment equal the inputs (stated over a sheet
whose header row is the standard one). -/
theorem C1_append_then_readAll (rows : Table) (ts comment : String) (rating : Int)
    (h1 : 1 ≤ rating) (h5 : rating ≤ 5) (hc : pyStrip comment ≠ "") :
    read_feedbacks_from_sheet (append_feedback_to_sheet (stdHeader :: rows) ts rating comment)
      = read_feedbacks_from_sheet (stdHeader :: rows)
        ++ [{ timestamp := ts, rating := rating, comment := comment }] := by
  have hr := toRating_toString rating h1 h5
  cases rows with
  | nil =>
    simp [append_feedback_to_sheet, read_cons, read_single, mkRecord_std, hr]
  | cons r rs =>
    simp [append_feedback_to_sheet, read_cons, mkRecord_std, hr, List.cons_append]

theorem C1_witness :
    ((1 : Int) ≤ 5 ∧ (5 : Int) ≤ 5 ∧ pyStrip "hello" ≠ "") ∧
      read_feedbacks_from_sheet
          (append_feedback_to_sheet (stdHeader :: []) "2024-05-01T10:00:00" 5 "hello")
        = read_feedbacks_from_sheet (stdHeader :: [])
          ++ [{ timestamp := "2024-05-01T10:00:00", rating := 5, comment := "hello" }] :=
  ⟨⟨by decide, by decide, by decide⟩,
    C1_append_then_readAll [] "2024-05-01T10:00:00" "hello" 5 (by decide) (by decide)
      (by decide)⟩

theorem dropWhile_ws_idem (l : List Char) :
    (l.dropWhile isPyWs).dropWhile isPyWs = l.dropWhile isPyWs := by
  induction l with
  | nil => rfl
  | cons c t ih =>
    by_cases h : isPyWs c <;> simp [List.dropWhile_cons, h, ih]

theorem dropRightWs_cons_not_ws (c : Char) (t : List Char) (h : isPyWs c = false) :
    dropRightWs (c :: t) = c :: dropRightWs t := by
  simp [dropRightWs, h]

theorem dropRightWs_idem (l : List Char) :
    dropRightWs (dropRightWs l) = dropRightWs l := by
  induction l with
  | nil => rfl
  | cons c t ih =>
    by_cases h : dropRightWs t = [] ∧ isPyWs c
    · simp [dropRightWs, h.1, h.2]
    · have h2 : ¬ (dropRightWs t = [] && isPyWs c) = true := by
        simp only [Bool.and_eq_true, decide_eq_true_eq]
        intro hh
        exact h ⟨by simpa using hh.1, hh.2⟩
      simp only [dropRightWs, if_neg h2]
      simp only [dropRightWs, ih, if_neg h2]

theorem dropWhile_ws_head_false (l : List Char) (c : Char) (t : List Char)
    (h : l.dropWhile isPyWs = c :: t) : isPyWs c = false := by
  induction l with
  | nil => simp at h
  | cons a l2 ih =>
    by_cases ha : isPyWs a
    · exact ih (by simpa [List.dropWhile_cons, ha] using h)
    · rw [List.dropWhile_cons, if_neg (by simpa using ha)] at h
      cases h
      simpa using ha

theorem stripList_idem (l : List Char) : stripList (stripList l) = stripList l := by
  unfold stripList
  have hfront : (dropRightWs (l.dropWhile isPyWs)).dropWhile isPyWs
      = dropRightWs (l.dropWhile isPyWs) := by
    cases h : l.dropWhile isPyWs with
    | nil => rfl
    | cons c t =>
      have hc := dropWhile_ws_head_false l c t h
      rw [dropRightWs_cons_not_ws c t hc, List.dropWhile_cons, if_neg (by simp [hc])]
  rw [hfront, dropRightWs_idem]

theorem pyStrip_idem (s : String) : pyStrip (pyStrip s) = pyStrip s := by
  show String.mk (stripList (stripList s.data)) = String.mk (stripList s.data)
  rw [stripList_idem]

/-- The two Store-level failure classes of the spec (§7). -/
inductive StoreErr where
  | unavailable
  | writeError
deriving DecidableEq, Repr

/-- Modelled from the spec: the failure conditions of the remote backend
(missing secrets or failed authorization at connect time, a failing
`append_row` call) live in the external streamlit/gspread layers and are
not under src/; the spec (§7) classifies them as `StoreUnavailable` and
`StoreWriteError`. The flags say which stage of a backend call would
succeed. -/
structure Env where
  secretsOk : Bool
  authOk : Bool
  appendOk : Bool
deriving DecidableEq, Repr

/-- Modelled from the spec: `append` against the remote backend fails with
`StoreUnavailable` if the connection/auth cannot be established, with
`StoreWriteError` if the `append_row` call itself fails, and otherwise
performs the single add-one-row operation `append_feedback_to_sheet`. -/
def append_gs (env : Env) (table : Table) (ts : String) (rating : Int)
    (comment : String) : Except StoreErr Table :=
  if env.secretsOk = false ∨ env.authOk = false then .error .unavailable
  else if env.appendOk = false then .error .writeError
  else .ok (append_feedback_to_sheet table ts rating comment)

/-- Modelled from the spec: `readAll` against the remote backend fails with
`StoreUnavailable` when connection/auth fails, and otherwise returns
`read_feedbacks_from_sheet` of the sheet contents. -/
def read_gs (env : Env) (table : Table) : Except StoreErr (List Record) :=
  if env.secretsOk = false ∨ env.authOk = false then .error .unavailable
  else .ok (read_feedbacks_from_sheet table)

/-- The user-visible outcome of one submission: `st.warning` for an empty
comment, `st.success` after a save, `st.error`/`st.exception` showing the
caught failure. -/
inductive SubmitOutcome where
  | validationWarning
  | saved
  | errorShown (e : StoreErr)
deriving DecidableEq, Repr

/-- The submission controller (src/app.py lines 131-141): reject when the
trimmed comment is empty; otherwise call the Store's append with the
trimmed comment inside try/except, turning any failure into a shown
error. Returns the new table together with the visible outcome. -/
def feedback_form (env : Env) (table : Table) (ts : String) (rating : Int)
    (comment : String) : Table × SubmitOutcome :=
  if pyStrip comment = "" then (table, .validationWarning)
  else
    match append_gs env table ts rating (pyStrip comment) with
    | .ok t2 => (t2, .saved)
    | .error e => (table, .errorShown e)

/-- The user-visible outcome of one refresh cycle: either the records are
handed to the rendering layer, or the caught failure is shown and the
cycle halts (src/app.py lines 107-111). -/
inductive RefreshOutcome where
  | rendered (records : List Record)
  | errorHalted (e : StoreErr)
deriving DecidableEq, Repr

/-- The refresh path (src/app.py lines 107-111): read the sheet inside
try/except; on failure surface the exception and stop the cycle. -/
def refresh_cycle (env : Env) (table : Table) : RefreshOutcome :=
  match read_gs env table with
  | .ok rs => .rendered rs
  | .error e => .errorHalted e

/-- C5: a submission whose comment is empty or whitespace-only after
trimming is rejected with a validation failure before any Store call (the
outcome and state are the same for every backend environment), and the
Store state — hence `readAll` — is unchanged. -/
theorem C5_whitespace_comment_rejected (env : Env) (table : Table) (ts : String)
    (rating : Int) (comment : String) (h : pyStrip comment = "") :
    feedback_form env table ts rating comment = (table, .validationWarning) ∧
      read_feedbacks_from_sheet (feedback_form env table ts rating comment).1
        = read_feedbacks_from_sheet table := by
  constructor <;> simp [feedback_form, h]

theorem C5_witness :
    pyStrip "   " = "" ∧
      feedback_form ⟨true, true, true⟩ [stdHeader] "2024-05-01T10:00:00" 4 "   "
        = ([stdHeader], .validationWarning) :=
  ⟨by decide,
    (C5_whitespace_comment_rejected ⟨true, true, true⟩ [stdHeader] "2024-05-01T10:00:00" 4
        "   " (by decide)).1⟩

/-- C10: on every successful submission the comment actually written to the
Store is the trimmed input (`comment.strip()`), the stored comment carries
no surrounding whitespace (trimming is idempotent), and the Store's
`append` itself writes its comment argument verbatim. -/
theorem C10_stored_comment_is_trimmed (env : Env) (table : Table) (ts : String)
    (rating : Int) (comment : String) (hc : pyStrip comment ≠ "")
    (hs : env.secretsOk = true) (ha : env.authOk = true) (hw : env.appendOk = true) :
    feedback_form env table ts rating comment
        = (table ++ [[ts, toString rating, pyStrip comment]], .saved) ∧
      pyStrip (pyStrip comment) = pyStrip comment ∧
      ∀ (t : Table) (ts2 c : String) (r : Int),
        append_feedback_to_sheet t ts2 r c = t ++ [[ts2, toString r, c]] := by
  refine ⟨?_, pyStrip_idem comment, fun _ _ _ _ => rfl⟩
  simp [feedback_form, hc, append_gs, hs, ha, hw, append_feedback_to_sheet]

theorem C10_witness :
    (pyStrip "  hi  " ≠ "") ∧
      feedback_form ⟨true, true, true⟩ [stdHeader] "ts0" 3 "  hi  "
        = ([stdHeader] ++ [["ts0", toString (3 : Int), pyStrip "  hi  "]], .saved) :=
  ⟨by decide,
    (C10_stored_comment_is_trimmed ⟨true, true, true⟩ [stdHeader] "ts0" 3 "  hi  "
        (by decide) rfl rfl rfl).1⟩

/-- C6: append fails with `StoreUnavailable` when the backend
connection/auth cannot be established and with `StoreWriteError` when the
append call itself fails; every Store-level failure — on the submit path
and on the refresh path — is surfaced as a user-visible outcome carrying
the error, never swallowed; the controllers are total functions into their
outcome types, so no failure escapes as an uncaught crash. -/
theorem C6_store_failures_surfaced (env : Env) (table : Table) (ts : String)
    (rating : Int) (comment : String) (hc : pyStrip comment ≠ "") :
    ((env.secretsOk = false ∨ env.authOk = false) →
        feedback_form env table ts rating comment = (table, .errorShown .unavailable)) ∧
      (env.secretsOk = true → env.authOk = true → env.appendOk = false →
        feedback_form env table ts rating comment = (table, .errorShown .writeError)) ∧
      (∀ e, append_gs env table ts rating (pyStrip comment) = .error e →
        (feedback_form env table ts rating comment).2 = .errorShown e) ∧
      (∀ e, read_gs env table = .error e → refresh_cycle env table = .errorHalted e) := by
  refine ⟨?_, ?_, ?_, ?_⟩
  · intro h
    have ha : append_gs env table ts rating (pyStrip comment) = .error .unavailable := by
      unfold append_gs; rw [if_pos h]
    simp [feedback_form, hc, ha]
  · intro hs ha hw
    have hno : ¬ (env.secretsOk = false ∨ env.authOk = false) := by simp [hs, ha]
    have hap : append_gs env table ts rating (pyStrip comment) = .error .writeError := by
      unfold append_gs; rw [if_neg hno, if_pos hw]
    simp [feedback_form, hc, hap]
  · intro e he
    simp [feedback_form, hc, he]
  · intro e he
    simp [refresh_cycle, he]

theorem C6_witness :
    (pyStrip "hello" ≠ "") ∧
      feedback_form ⟨true, true, false⟩ [stdHeader] "ts0" 5 "hello"
        = ([stdHeader], .errorShown .writeError) :=
  ⟨by decide,
    (C6_store_failures_surfaced ⟨true, true, false⟩ [stdHeader] "ts0" 5 "hello"
        (by decide)).2.1 rfl rfl rfl⟩

theorem colIndex_eq_none (name : String) (hdr : List String) (h : name ∉ hdr) :
    colIndex name hdr = none := by
  induction hdr with
  | nil => rfl
  | cons a t ih =>
    have hne : ¬ (a = name) := fun e => h (by rw [← e]; exact List.mem_cons_self a t)
    simp [colIndex, hne, ih (fun m => h (List.mem_cons_of_mem a m))]

theorem mem_read (hdr : List String) (rows : List (List String)) (rec : Record)
    (h : rec ∈ read_feedbacks_from_sheet (hdr :: rows)) :
    ∃ row ∈ rows, rec = mkRecord hdr row := by
  cases rows with
  | nil => simp [read_single] at h
  | cons r rs =>
    rw [read_cons] at h
    rcases List.mem_map.mp h with ⟨row, hm, he⟩
    exact ⟨row, hm, he.symm⟩

theorem toRating_empty : toRating "" = 0 := by decide

theorem isInfCell_empty : isInfCell "" = false := by decide

/-- On clean contents — no duplicated rating header column, no rating cell
parsing to an infinity — the read raises nothing and returns exactly the
normalized rows of `read_feedbacks_from_sheet`. -/
theorem read_result_ok_of_clean (hdr : List String) (rows : List (List String))
    (hdup : hdr.count "rating" < 2)
    (hinf : ∀ row ∈ rows, isInfCell (getCol hdr row "rating") = false) :
    read_feedbacks_result (hdr :: rows)
      = .ok (read_feedbacks_from_sheet (hdr :: rows)) := by
  cases rows with
  | nil => rfl
  | cons r rs =>
    have h1 : ¬ (hdr :: r :: rs).length ≤ 1 := by simp
    have h2 : ¬ 2 ≤ hdr.count "rating" := by omega
    have h3 : (r :: rs).any (fun row => isInfCell (getCol hdr row "rating")) = false := by
      simp only [List.any_eq_false]
      intro row hm
      simp [hinf row hm]
    rw [read_cons]
    simp only [read_feedbacks_result, if_neg h1, if_neg h2, h3]
    simp

/-- C3 counterexample: the claim says `readAll` never raises for any
backend contents, but the read does raise on reachable contents: a rating
cell `"inf"` survives `errors="coerce"` as an infinity and the integer
cast fails, and a duplicated `rating` header column makes the numeric
conversion fail. -/
theorem C3_counterexample :
    read_feedbacks_result (stdHeader :: [["2024-05-01T10:00:00", "inf", "c"]])
        = .error .nonFiniteRating ∧
      read_feedbacks_result (["timestamp", "rating", "rating"] :: [["t", "1", "2"]])
        = .error .duplicateRatingColumns :=
  ⟨rfl, rfl⟩

/-- C3 (amended): `readAll` tolerates malformed rows short of the numeric
cast: whenever the header does not duplicate the rating column and no
rating cell parses to an infinity, nothing is raised and the normalized
rows are returned — in particular a row missing an expected field gets
the empty string for that field, a rating value failing numeric parsing
(coerced to NaN) becomes 0, and with the rating column absent every
returned Record has rating 0 and no exception is raised; but the read is
not exception-free for every backend contents: a duplicated `rating`
header column raises, and a rating cell parsing to an IEEE infinity
(such as "inf" or "1e999") makes the integer cast raise. -/
theorem C3_read_schema_tolerant_amended (hdr : List String) (rows : List (List String)) :
    (hdr.count "rating" < 2 →
        (∀ row ∈ rows, isInfCell (getCol hdr row "rating") = false) →
        read_feedbacks_result (hdr :: rows)
          = .ok (read_feedbacks_from_sheet (hdr :: rows))) ∧
      (2 ≤ hdr.count "rating" → rows ≠ [] →
        read_feedbacks_result (hdr :: rows) = .error .duplicateRatingColumns) ∧
      (hdr.count "rating" < 2 →
        rows.any (fun row => isInfCell (getCol hdr row "rating")) = true →
        read_feedbacks_result (hdr :: rows) = .error .nonFiniteRating) ∧
      (("rating" : String) ∉ hdr →
        read_feedbacks_result (hdr :: rows)
            = .ok (read_feedbacks_from_sheet (hdr :: rows)) ∧
          ∀ rec ∈ read_feedbacks_from_sheet (hdr :: rows), rec.rating = 0) ∧
      (("timestamp" : String) ∉ hdr →
        ∀ rec ∈ read_feedbacks_from_sheet (hdr :: rows), rec.timestamp = "") ∧
      (("comment" : String) ∉ hdr →
        ∀ rec ∈ read_feedbacks_from_sheet (hdr :: rows), rec.comment = "") ∧
      (∀ s, toNumericQ s = none → toRating s = 0) := by
  refine ⟨read_result_ok_of_clean hdr rows, ?_, ?_, ?_, ?_, ?_, ?_⟩
  · intro hdup hne
    cases rows with
    | nil => exact absurd rfl hne
    | cons r rs =>
      have h1 : ¬ (hdr :: r :: rs).length ≤ 1 := by simp
      simp only [read_feedbacks_result, if_neg h1, if_pos hdup]
  · intro hdup hany
    cases rows with
    | nil => simp at hany
    | cons r rs =>
      have h1 : ¬ (hdr :: r :: rs).length ≤ 1 := by simp
      have h2 : ¬ 2 ≤ hdr.count "rating" := by omega
      simp only [read_feedbacks_result, if_neg h1, if_neg h2, hany]
      simp
  · intro hna
    have hc0 : hdr.count "rating" = 0 := List.count_eq_zero.mpr hna
    have hall : ∀ row ∈ rows, isInfCell (getCol hdr row "rating") = false := by
      intro row _
      have hg : getCol hdr row "rating" = "" := by
        simp [getCol, colIndex_eq_none _ _ hna]
      rw [hg, isInfCell_empty]
    refine ⟨read_result_ok_of_clean hdr rows (by omega) hall, ?_⟩
    intro rec hmem
    rcases mem_read hdr rows rec hmem with ⟨row, _, rfl⟩
    have hg : getCol hdr row "rating" = "" := by
      simp [getCol, colIndex_eq_none _ _ hna]
    simp [mkRecord, hg, toRating_empty]
  · intro hna rec hmem
    rcases mem_read hdr rows rec hmem with ⟨row, _, rfl⟩
    simp [mkRecord, getCol, colIndex_eq_none _ _ hna]
  · intro hna rec hmem
    rcases mem_read hdr rows rec hmem with ⟨row, _, rfl⟩
    simp [mkRecord, getCol, colIndex_eq_none _ _ hna]
  · intro s h
    simp [toRating, h]

theorem C3_witness :
    (("rating" : String) ∉ (["timestamp", "comment"] : List String)) ∧
      read_feedbacks_result (["timestamp", "comment"] :: [["t", "hi"]])
        = .ok (read_feedbacks_from_sheet (["timestamp", "comment"] :: [["t", "hi"]])) ∧
      ({ timestamp := "t", rating := 0, comment := "hi" } : Record).rating = 0 :=
  ⟨by decide,
    ((C3_read_schema_tolerant_amended ["timestamp", "comment"] [["t", "hi"]]).2.2.2.1
        (by decide)).1,
    ((C3_read_schema_tolerant_amended ["timestamp", "comment"] [["t", "hi"]]).2.2.2.1
        (by decide)).2 { timestamp := "t", rating := 0, comment := "hi" } (by decide)⟩

/-- Insert `x` into `l` so that it lands before the first element strictly
below it: the insertion step of a stable descending sort. -/
def insertDescBy (lt : α → α → Bool) (x : α) : List α → List α
  | [] => [x]
  | y :: t => if lt y x then x :: y :: t else y :: insertDescBy lt x t

/-- Stable descending sort (left fold of insertions), the behavior of
`sort_values(ascending=False)` on distinct keys. -/
def sortDescBy (lt : α → α → Bool) (l : List α) : List α :=
  l.foldl (fun acc x => insertDescBy lt x acc) []

/-- Adjacent-pairs check that a list is in descending order: no element is
strictly below its successor. -/
def sortedDescBy (lt : α → α → Bool) : List α → Bool
  | [] => true
  | [_] => true
  | a :: b :: t => !(lt a b) && sortedDescBy lt (b :: t)

theorem insertDescBy_perm (lt : α → α → Bool) (x : α) (l : List α) :
    (insertDescBy lt x l).Perm (x :: l) := by
  induction l with
  | nil => exact List.Perm.refl _
  | cons y t ih =>
    by_cases h : lt y x
    · simp only [insertDescBy, if_pos h]
      exact List.Perm.refl _
    · simp only [insertDescBy, if_neg h]
      exact (ih.cons y).trans (List.Perm.swap x y t)

theorem sortDescBy_aux_perm (lt : α → α → Bool) (l acc : List α) :
    (l.foldl (fun a x => insertDescBy lt x a) acc).Perm (acc ++ l) := by
  induction l generalizing acc with
  | nil => simp
  | cons x t ih =>
    simp only [List.foldl_cons]
    refine (ih (insertDescBy lt x acc)).trans ?_
    refine (List.Perm.append_right t (insertDescBy_perm lt x acc)).trans ?_
    exact List.perm_middle.symm

theorem sortDescBy_perm (lt : α → α → Bool) (l : List α) : (sortDescBy lt l).Perm l := by
  simpa using sortDescBy_aux_perm lt l []

theorem sortDescBy_length (lt : α → α → Bool) (l : List α) :
    (sortDescBy lt l).length = l.length :=
  (sortDescBy_perm lt l).length_eq

theorem sortedDescBy_insert (lt : α → α → Bool)
    (hasym : ∀ a b, lt a b = true → lt b a = false) (x : α) (l : List α)
    (h : sortedDescBy lt l = true) :
    sortedDescBy lt (insertDescBy lt x l) = true := by
  induction l with
  | nil => rfl
  | cons y t ih =>
    by_cases hyx : lt y x
    · simp only [insertDescBy, if_pos hyx, sortedDescBy]
      rw [hasym y x hyx]
      simpa using h
    · have hyxf : lt y x = false := by simpa using hyx
      simp only [insertDescBy, if_neg hyx]
      cases t with
      | nil =>
        simp [insertDescBy, sortedDescBy, hyxf]
      | cons z t2 =>
        have hparts : lt y z = false ∧ sortedDescBy lt (z :: t2) = true := by
          simpa [sortedDescBy] using h
        have hzt : sortedDescBy lt (z :: t2) = true := hparts.2
        have hyz : lt y z = false := hparts.1
        have hins := ih hzt
        by_cases hzx : lt z x
        · simp only [insertDescBy, if_pos hzx, sortedDescBy] at hins ⊢
          rw [hyxf, hasym z x hzx]
          simpa using hzt
        · simp only [insertDescBy, if_neg hzx] at hins ⊢
          simp only [sortedDescBy, hyz]
          simpa using hins

theorem sortDescBy_sorted (lt : α → α → Bool)
    (hasym : ∀ a b, lt a b = true → lt b a = false) (l : List α) :
    sortedDescBy lt (sortDescBy lt l) = true := by
  suffices h : ∀ (l2 acc : List α), sortedDescBy lt acc = true →
      sortedDescBy lt (l2.foldl (fun a x => insertDescBy lt x a) acc) = true by
    exact h l [] rfl
  intro l2
  induction l2 with
  | nil => intro acc h; simpa using h
  | cons x t ih =>
    intro acc h
    exact ih _ (sortedDescBy_insert lt hasym x acc h)

theorem sortedDescBy_take (lt : α → α → Bool) :
    ∀ (l : List α) (n : Nat), sortedDescBy lt l = true →
      sortedDescBy lt (l.take n) = true := by
  intro l
  induction l with
  | nil => intro n _; simp [sortedDescBy]
  | cons a t ih =>
    intro n h
    cases n with
    | zero => rfl
    | succ m =>
      rw [List.take_succ_cons]
      cases t with
      | nil => simp [sortedDescBy]
      | cons b t2 =>
        cases m with
        | zero => rfl
        | succ k =>
          have hparts : lt a b = false ∧ sortedDescBy lt (b :: t2) = true := by
            simpa [sortedDescBy] using h
          have htail := ih (k + 1) hparts.2
          rw [List.take_succ_cons] at htail ⊢
          simp [sortedDescBy, hparts.1, htail]

/-- Code-point lexicographic comparison of character lists. -/
def strLtChars : List Char → List Char → Bool
  | [], [] => false
  | [], _ :: _ => true
  | _ :: _, [] => false
  | a :: as, b :: bs =>
    if a.toNat < b.toNat then true
    else if b.toNat < a.toNat then false
    else strLtChars as bs

/-- Code-point lexicographic comparison of strings: the order Python uses
when `sort_values` compares the string cells of the timestamp column. -/
def strLt (a b : String) : Bool :=
  strLtChars a.data b.data

theorem strLtChars_asymm :
    ∀ as bs, strLtChars as bs = true → strLtChars bs as = false := by
  intro as
  induction as with
  | nil =>
    intro bs h
    cases bs with
    | nil => simp [strLtChars] at h
    | cons b bs2 => rfl
  | cons a as2 ih =>
    intro bs h
    cases bs with
    | nil => simp [strLtChars] at h
    | cons b bs2 =>
      by_cases h1 : a.toNat < b.toNat
      · have h2 : ¬ b.toNat < a.toNat := Nat.lt_asymm h1
        simp [strLtChars, h1, h2]
      · by_cases h2 : b.toNat < a.toNat
        · simp [strLtChars, h1, h2] at h
        · simp only [strLtChars, if_neg h1, if_neg h2] at h
          simp only [strLtChars, if_neg h2, if_neg h1]
          exact ih bs2 h

theorem strLt_asymm (a b : String) (h : strLt a b = true) : strLt b a = false :=
  strLtChars_asymm a.data b.data h

theorem strLt_empty (s : String) : strLt s "" = false := by
  show strLtChars s.data [] = false
  cases s.data <;> rfl

/-- The record comparison `df_show` sorts by: the raw timestamp strings. -/
def tsLt (a b : Record) : Bool :=
  strLt a.timestamp b.timestamp

theorem tsLt_asymm (a b : Record) (h : tsLt a b = true) : tsLt b a = false :=
  strLt_asymm a.timestamp b.timestamp h

/-- `df_show` (src/app.py line 151):
`df_all.sort_values(by="timestamp", ascending=False)` — all records sorted
with the largest timestamp string first. -/
def df_show (records : List Record) : List Record :=
  sortDescBy tsLt records

/-- The recent-feed projection: `df_show.head(limit)`; the rendered feed
takes `limit = 50` (src/app.py line 153). -/
def recent (records : List Record) (limit : Nat) : List Record :=
  (df_show records).take limit

/-- C2 counterexample: the claim places records with unparseable timestamps
as the oldest, but the code compares raw strings, so the record with
timestamp "not a timestamp" sorts in front of (newer than) a genuine ISO
timestamp, not behind it. -/
theorem C2_counterexample :
    recent [{ timestamp := "not a timestamp", rating := 3, comment := "x" },
        { timestamp := "2024-05-01T10:00:00", rating := 4, comment := "y" }] 2
      = [{ timestamp := "not a timestamp", rating := 3, comment := "x" },
        { timestamp := "2024-05-01T10:00:00", rating := 4, comment := "y" }] ∧
    recent [{ timestamp := "not a timestamp", rating := 3, comment := "x" },
        { timestamp := "2024-05-01T10:00:00", rating := 4, comment := "y" }] 2
      ≠ [{ timestamp := "2024-05-01T10:00:00", rating := 4, comment := "y" },
        { timestamp := "not a timestamp", rating := 3, comment := "x" }] := by
  constructor <;> decide

/-- C2 (amended): `recent(records, limit)` returns the records sorted by the
timestamp string in descending code-point lexicographic order, truncated to
`limit` entries (50 in the feed); a missing timestamp is the empty string —
the lexicographic minimum — and therefore sorts as oldest, while an
arbitrary unparseable timestamp is compared by its literal characters and
may sort anywhere; on three records with timestamps T1 < T2 < T3 as strings
(as ISO-8601 timestamps are) and limit 2 the result is [T3, T2]. -/
theorem C2_recent_amended :
    (∀ (records : List Record) (limit : Nat),
        (recent records limit).length = min limit records.length ∧
          sortedDescBy tsLt (recent records limit) = true ∧
          (df_show records).Perm records ∧
          recent records 50 = (df_show records).take 50) ∧
      (∀ s : String, strLt s "" = false) ∧
      (∀ r1 r2 r3 : Record,
        strLt r1.timestamp r2.timestamp = true →
        strLt r2.timestamp r3.timestamp = true →
        recent [r1, r2, r3] 2 = [r3, r2]) := by
  refine ⟨fun records limit => ⟨?_, ?_, sortDescBy_perm tsLt records, rfl⟩, strLt_empty, ?_⟩
  · rw [recent, List.length_take, df_show, sortDescBy_length]
  · exact sortedDescBy_take tsLt _ limit (sortDescBy_sorted tsLt tsLt_asymm records)
  · intro r1 r2 r3 h12 h23
    simp [recent, df_show, sortDescBy, insertDescBy, tsLt, h12, h23]

theorem C2_witness :
    (strLt "2024-01-01T00:00:00" "2024-01-02T00:00:00" = true ∧
        strLt "2024-01-02T00:00:00" "2024-01-03T00:00:00" = true) ∧
      recent [{ timestamp := "2024-01-01T00:00:00", rating := 1, comment := "a" },
          { timestamp := "2024-01-02T00:00:00", rating := 2, comment := "b" },
          { timestamp := "2024-01-03T00:00:00", rating := 3, comment := "c" }] 2
        = [{ timestamp := "2024-01-03T00:00:00", rating := 3, comment := "c" },
          { timestamp := "2024-01-02T00:00:00", rating := 2, comment := "b" }] :=
  ⟨⟨by decide, by decide⟩, C2_recent_amended.2.2 _ _ _ (by decide) (by decide)⟩

/-- Lookup of a column name among (header cell, row cell) pairs: the
value paired with the first occurrence of the name. -/
def lookupPairs (name : String) : List (String × String) → Option String
  | [] => none
  | p :: t => if p.1 = name then some p.2 else lookupPairs name t

theorem getCol_cons_eq (h : String) (t row : List String) (name : String)
    (he : h = name) : getCol (h :: t) row name = row.getD 0 "" := by
  simp [getCol, colIndex, he]

theorem getCol_cons_ne (h : String) (t row : List String) (name : String)
    (he : ¬ h = name) : getCol (h :: t) row name = getCol t (row.drop 1) name := by
  simp only [getCol, colIndex, if_neg he]
  cases hci : colIndex name t with
  | none => simp
  | some i =>
    simp only [Option.map_some']
    cases row with
    | nil => simp
    | cons r rs => simp

theorem getCol_eq_lookupPairs (name : String) :
    ∀ (hdr row : List String),
      getCol hdr row name = (lookupPairs name (hdr.zip row)).getD "" := by
  intro hdr
  induction hdr with
  | nil => intro row; rfl
  | cons h t ih =>
    intro row
    by_cases he : h = name
    · cases row with
      | nil => rw [getCol_cons_eq h t [] name he]; rfl
      | cons r rs => rw [getCol_cons_eq h t (r :: rs) name he]; simp [lookupPairs, he]
    · rw [getCol_cons_ne h t row name he]
      cases row with
      | nil => simpa using ih []
      | cons r rs =>
        simp only [List.drop_succ_cons, List.drop_zero, List.zip_cons_cons]
        rw [ih rs]
        simp [lookupPairs, he]

theorem lookupPairs_perm (name : String) :
    ∀ {l1 l2 : List (String × String)}, l1.Perm l2 →
      (l1.map Prod.fst).Nodup → lookupPairs name l1 = lookupPairs name l2 := by
  intro l1 l2 h
  induction h with
  | nil => intro _; rfl
  | cons x h2 ih =>
    intro nd
    by_cases he : x.1 = name
    · simp [lookupPairs, he]
    · simp only [lookupPairs, if_neg he]
      exact ih (List.nodup_cons.mp (by simpa using nd)).2
  | swap x y l =>
    intro nd
    have h0 : y.1 ∉ (x :: l).map Prod.fst := (List.nodup_cons.mp (by simpa using nd)).1
    have hxy : ¬ y.1 = x.1 := by
      simp only [List.map_cons, List.mem_cons] at h0
      exact fun e => h0 (Or.inl e)
    by_cases hy : y.1 = name
    · have hx : ¬ x.1 = name := fun e => hxy (hy.trans e.symm)
      simp [lookupPairs, hy, hx]
    · by_cases hx : x.1 = name
      · simp [lookupPairs, hy, hx]
      · simp [lookupPairs, hy, hx]
  | trans h1 h2 ih1 ih2 =>
    intro nd
    have nd2 := ((h1.map Prod.fst).nodup_iff).mp nd
    exact (ih1 nd).trans (ih2 nd2)

theorem nodup_keys_zip :
    ∀ (hdr row : List String), hdr.Nodup → ((hdr.zip row).map Prod.fst).Nodup := by
  intro hdr
  induction hdr with
  | nil => intro row _; simp
  | cons h t ih =>
    intro row nd
    cases row with
    | nil => simp
    | cons r rs =>
      rw [List.zip_cons_cons, List.map_cons, List.nodup_cons]
      refine ⟨?_, ih rs (List.nodup_cons.mp nd).2⟩
      intro hmem
      rcases List.mem_map.mp hmem with ⟨p, hp, he⟩
      have hfst : p.1 ∈ t := (List.of_mem_zip hp).1
      have he2 : p.1 = h := he
      rw [he2] at hfst
      exact (List.nodup_cons.mp nd).1 hfst

theorem mkRecord_eq_of_zip_perm (hdr row hdr2 row2 : List String)
    (nd : hdr.Nodup) (hperm : (hdr2.zip row2).Perm (hdr.zip row)) :
    mkRecord hdr2 row2 = mkRecord hdr row := by
  have nd1 : ((hdr.zip row).map Prod.fst).Nodup := nodup_keys_zip hdr row nd
  have nd2 : ((hdr2.zip row2).map Prod.fst).Nodup :=
    ((hperm.map Prod.fst).nodup_iff).mpr nd1
  have hl : ∀ nm, lookupPairs nm (hdr2.zip row2) = lookupPairs nm (hdr.zip row) :=
    fun nm => lookupPairs_perm nm hperm nd2
  simp [mkRecord, getCol_eq_lookupPairs, hl]

theorem read_eq_of_rowwise (hdr hdr2 : List String) (rows rows2 : Table)
    (hlen : rows2.length = rows.length)
    (hrec : ∀ i (h2 : i < rows2.length) (h1 : i < rows.length),
      mkRecord hdr2 rows2[i] = mkRecord hdr rows[i]) :
    read_feedbacks_from_sheet (hdr2 :: rows2) = read_feedbacks_from_sheet (hdr :: rows) := by
  cases rows with
  | nil =>
    have h2 : rows2 = [] := List.length_eq_zero.mp (by simpa using hlen)
    rw [h2, read_single, read_single]
  | cons r rs =>
    cases rows2 with
    | nil => simp at hlen
    | cons r2 rs2 =>
      rw [read_cons, read_cons]
      apply List.ext_getElem
      · simpa using hlen
      · intro n h1 h2
        rw [List.getElem_map, List.getElem_map]
        exact hrec n (by simpa using h1) (by simpa using h2)

theorem lookupPairs_append_irrelevant (nm : String) (name v : String)
    (hne : ¬ name = nm) :
    ∀ l : List (String × String),
      lookupPairs nm (l ++ [(name, v)]) = lookupPairs nm l := by
  intro l
  induction l with
  | nil => simp [lookupPairs, hne]
  | cons p t ih => by_cases hp : p.1 = nm <;> simp [lookupPairs, hp, ih]

theorem mkRecord_append_extra (hdr row : List String) (name v : String)
    (hlen : row.length = hdr.length) (hn : name ∉ stdHeader) :
    mkRecord (hdr ++ [name]) (row ++ [v]) = mkRecord hdr row := by
  have hz : (hdr ++ [name]).zip (row ++ [v]) = hdr.zip row ++ [(name, v)] := by
    rw [List.zip_append hlen.symm]
    rfl
  have hn3 : ¬ name = "timestamp" ∧ ¬ name = "rating" ∧ ¬ name = "comment" := by
    simpa [stdHeader] using hn
  simp [mkRecord, getCol_eq_lookupPairs, hz,
    lookupPairs_append_irrelevant "timestamp" name v hn3.1,
    lookupPairs_append_irrelevant "rating" name v hn3.2.1,
    lookupPairs_append_irrelevant "comment" name v hn3.2.2]

/-- C9: `readAll` presents each Record with exactly the three fields
timestamp, rating, comment in that fixed order (the `Record` structure,
built from the columns `expected` in order); reordering the backend
columns — permuting the header together with every row — leaves the result
unchanged; appending an extra column whose name is none of the expected
three leaves the result unchanged (extra columns are dropped); and the
rating of every returned Record is the integer normalization `toRating` of
a cell. Stated for headers with distinct column names, rectangular where
the extra column is inserted. -/
theorem C9_fixed_fields_reorder_extra :
    (∀ (hdr : List String) (rows : Table) (hdr2 : List String) (rows2 : Table),
        hdr.Nodup → rows2.length = rows.length →
        (∀ i (h2 : i < rows2.length) (h1 : i < rows.length),
          (hdr2.zip rows2[i]).Perm (hdr.zip rows[i])) →
        read_feedbacks_from_sheet (hdr2 :: rows2) = read_feedbacks_from_sheet (hdr :: rows)) ∧
      (∀ (hdr : List String) (rows : Table) (name : String) (vals : List String),
        name ∉ stdHeader →
        (∀ row ∈ rows, row.length = hdr.length) →
        vals.length = rows.length →
        read_feedbacks_from_sheet
            ((hdr ++ [name]) :: (rows.zip vals).map (fun rv => rv.1 ++ [rv.2]))
          = read_feedbacks_from_sheet (hdr :: rows)) ∧
      (∀ (table : Table) (rec : Record), rec ∈ read_feedbacks_from_sheet table →
        ∃ s, rec.rating = toRating s) := by
  refine ⟨?_, ?_, ?_⟩
  · intro hdr rows hdr2 rows2 nd hlen hperm
    exact read_eq_of_rowwise hdr hdr2 rows rows2 hlen
      (fun i h2 h1 => mkRecord_eq_of_zip_perm hdr rows[i] hdr2 rows2[i] nd (hperm i h2 h1))
  · intro hdr rows name vals hn hrect hvl
    have hlen : ((rows.zip vals).map (fun rv => rv.1 ++ [rv.2])).length = rows.length := by
      simp [List.length_zip, hvl]
    refine read_eq_of_rowwise hdr (hdr ++ [name]) rows _ hlen ?_
    intro i h2 h1
    have hiz : i < (rows.zip vals).length := by simpa using h2
    have hrow : ((rows.zip vals).map (fun rv => rv.1 ++ [rv.2]))[i]
        = rows[i] ++ [vals[i]] := by
      rw [List.getElem_map, List.getElem_zip]
    rw [hrow]
    exact mkRecord_append_extra hdr rows[i] name vals[i]
      (hrect rows[i] (List.getElem_mem h1)) hn
  · intro table rec h
    cases table with
    | nil => simp [read_nil] at h
    | cons hdr rows =>
      rcases mem_read hdr rows rec h with ⟨row, _, rfl⟩
      exact ⟨getCol hdr row "rating", rfl⟩

theorem C9_witness :
    ((["timestamp", "rating", "comment"] : List String).Nodup) ∧
      read_feedbacks_from_sheet (["comment", "timestamp", "rating"] :: [["hi", "t", "5"]])
        = read_feedbacks_from_sheet (["timestamp", "rating", "comment"] :: [["t", "5", "hi"]]) :=
  ⟨by decide,
    C9_fixed_fields_reorder_extra.1 ["timestamp", "rating", "comment"] [["t", "5", "hi"]]
      ["comment", "timestamp", "rating"] [["hi", "t", "5"]] (by decide) rfl
      (by
        intro i h2 h1
        have h0 : i = 0 := Nat.lt_one_iff.mp (by simpa using h2)
        subst h0
        simp only [List.getElem_cons_zero]
        decide)⟩

/-- Modelled from the spec: the explicit field-presence check with
default-value substitution (spec §9, §3 invariants) used by the local
flat-table backend's read path: the value under a named column of a row,
or the empty string when the column is absent. -/
def fieldOrEmpty (hdr row : List String) (name : String) : String :=
  match lookupPairs name (hdr.zip row) with
  | some v => v
  | none => ""

/-- Modelled from the spec: `readAll` of the local flat-table backend
(spec §4.1), which is not present under src/ (only the remote spreadsheet
backend is). The file is embedded as its parsed header-row table; empty or
header-only tables give the empty sequence; each data row is normalized
with the field-presence check and the rating normalization. -/
def local_read_all : Table → List Record
  | [] => []
  | [_] => []
  | hdr :: row :: rows =>
    (row :: rows).map (fun r =>
      { timestamp := fieldOrEmpty hdr r "timestamp"
        rating := toRating (fieldOrEmpty hdr r "rating")
        comment := fieldOrEmpty hdr r "comment" })

/-- Modelled from the spec: `append` of the local flat-table backend
(spec §4.1): load the full table into memory, add one row, write back. -/
def local_append (table : Table) (ts : String) (rating : Int) (comment : String) : Table :=
  table ++ [[ts, toString rating, comment]]

theorem fieldOrEmpty_eq_getCol (hdr row : List String) (name : String) :
    fieldOrEmpty hdr row name = getCol hdr row name := by
  rw [getCol_eq_lookupPairs]
  cases h : lookupPairs name (hdr.zip row) <;> simp [fieldOrEmpty, h]

theorem local_read_all_eq (table : Table) :
    local_read_all table = read_feedbacks_from_sheet table := by
  match table with
  | [] => rfl
  | [hdr] => rfl
  | hdr :: r :: rs =>
    rw [read_cons]
    simp only [local_read_all]
    apply List.map_congr_left
    intro row _
    simp [mkRecord, fieldOrEmpty_eq_getCol]

/-- Modelled from the spec: the failure conditions of the local flat-table
backend (spec §4.1, §7): the backing file cannot be opened/created —
the connect stage — or the write-back of the extended table fails. The
spec requires both backends to surface the same two failure classes. -/
structure LocalEnv where
  storageOk : Bool
  writeOk : Bool
deriving DecidableEq, Repr

/-- Modelled from the spec: `readAll` of the local backend with its
failure surface — `StoreUnavailable` when the file cannot be reached,
otherwise the normalized table contents. -/
def local_read_result (env : LocalEnv) (table : Table) : Except StoreErr (List Record) :=
  if env.storageOk = false then .error .unavailable
  else .ok (local_read_all table)

/-- Modelled from the spec: `append` of the local backend with its
failure surface — `StoreUnavailable` when the file cannot be reached,
`StoreWriteError` when the write-back fails, otherwise the
load-add-write-back of `local_append`. -/
def local_append_result (env : LocalEnv) (table : Table) (ts : String) (rating : Int)
    (comment : String) : Except StoreErr Table :=
  if env.storageOk = false then .error .unavailable
  else if env.writeOk = false then .error .writeError
  else .ok (local_append table ts rating comment)

/-- C4: the two Store backends are observably interchangeable: they share
the signatures readAll : Table → List Record and
append : Table → String → Int → String → Table, and given equal
backing-table contents, `readAll` returns equal Record sequences (same
normalization rules on read) and `append` produces equal new tables;
moreover the failure surfacing is the same: whenever the two environments
fail at corresponding stages (connect resp. write), the fallible reads
and appends of the two backends return identical results — the same
`StoreUnavailable`/`StoreWriteError` classification and, on success, the
same values. -/
theorem C4_backends_interchangeable (table : Table) (ts : String) (rating : Int)
    (comment : String) :
    (local_read_all table = read_feedbacks_from_sheet table ∧
        local_append table ts rating comment
          = append_feedback_to_sheet table ts rating comment) ∧
      ∀ (genv : Env) (lenv : LocalEnv),
        (genv.secretsOk && genv.authOk) = lenv.storageOk →
        genv.appendOk = lenv.writeOk →
        local_read_result lenv table = read_gs genv table ∧
          local_append_result lenv table ts rating comment
            = append_gs genv table ts rating comment := by
  refine ⟨⟨local_read_all_eq table, rfl⟩, ?_⟩
  intro genv lenv hconn happ
  cases genv with
  | mk s a w =>
    cases lenv with
    | mk st wr =>
      simp only at hconn happ
      subst hconn
      subst happ
      cases s <;> cases a <;> cases w <;>
        simp [local_read_result, read_gs, local_append_result, append_gs,
          local_read_all_eq table, local_append, append_feedback_to_sheet]

theorem C4_witness :
    local_read_result { storageOk := true, writeOk := false } [stdHeader]
        = read_gs { secretsOk := true, authOk := true, appendOk := false } [stdHeader] ∧
      local_append_result { storageOk := true, writeOk := false } [stdHeader] "ts0" 5 "hi"
        = append_gs { secretsOk := true, authOk := true, appendOk := false } [stdHeader]
            "ts0" 5 "hi" :=
  ⟨((C4_backends_interchangeable [stdHeader] "ts0" 5 "hi").2
      { secretsOk := true, authOk := true, appendOk := false }
      { storageOk := true, writeOk := false } rfl rfl).1,
    ((C4_backends_interchangeable [stdHeader] "ts0" 5 "hi").2
      { secretsOk := true, authOk := true, appendOk := false }
      { storageOk := true, writeOk := false } rfl rfl).2⟩

/-- `all_text` (src/app.py line 116): the word-cloud corpus — every
comment of the read records joined by single spaces
(`" ".join(df_all["comment"].astype(str).tolist())`). -/
def all_text (records : List Record) : String :=
  String.intercalate " " (records.map (fun r => r.comment))

/-- Split a character list into maximal whitespace-free words; `cur` holds
the (reversed) word being accumulated. -/
def wordsAux (cur : List Char) : List Char → List (List Char)
  | [] => if cur = [] then [] else [cur.reverse]
  | c :: rest =>
    if isPyWs c then
      if cur = [] then wordsAux [] rest else cur.reverse :: wordsAux [] rest
    else wordsAux (c :: cur) rest

/-- Modelled from the spec: case-insensitive whitespace word tokenization
of the corpus. In src/ this step happens inside the external WordCloud
library (`WordCloud(..., stopwords=None, max_words=200).generate`), whose
code is not part of the repository. -/
def tokenize (s : String) : List String :=
  (wordsAux [] s.data).map (fun cs => String.mk (cs.map lowerChar))

/-- First-seen deduplication of a word list. -/
def dedupFirstSeen (seen : List String) : List String → List String
  | [] => []
  | w :: t =>
    if w ∈ seen then dedupFirstSeen seen t
    else w :: dedupFirstSeen (w :: seen) t

/-- Frequency comparison for the word cap: strictly smaller count. -/
def cntLt (a b : String × Nat) : Bool :=
  decide (a.2 < b.2)

theorem cntLt_asymm (a b : String × Nat) (h : cntLt a b = true) : cntLt b a = false := by
  simp only [cntLt, decide_eq_true_eq] at h
  simp only [cntLt, decide_eq_false_iff_not]
  omega

/-- Modelled from the spec: `aggregate` — the word→frequency mapping of
the Aggregator (§4.2). The corpus construction `all_text` is the
repository's own code; tokenization, occurrence counting and the cap of
200 distinct words by frequency descending (ties broken in first-seen
order) are performed by the external WordCloud library configured with
`max_words=200`, and are modelled here from the spec's words. -/
def aggregate (records : List Record) : List (String × Nat) :=
  let ws := tokenize (all_text records)
  let distinct := dedupFirstSeen [] ws
  let counted := distinct.map (fun w => (w, ws.count w))
  (sortDescBy cntLt counted).take 200

/-- C7: `aggregate` joins every comment into one whitespace-separated
corpus, tokenizes case-insensitively, counts occurrences, and reports at
most 200 distinct words in non-increasing frequency order with
deterministic (stable, first-seen) tie-breaking; on the single comment
"good good bad" it yields good ↦ 2, bad ↦ 1. -/
theorem C7_aggregate_wordfreq :
    (∀ records : List Record, (aggregate records).length ≤ 200) ∧
      (∀ records : List Record, sortedDescBy cntLt (aggregate records) = true) ∧
      aggregate [{ timestamp := "t", rating := 4, comment := "good good bad" }]
        = [("good", 2), ("bad", 1)] := by
  refine ⟨?_, ?_, ?_⟩
  · intro records
    simp only [aggregate]
    exact List.length_take_le 200 _
  · intro records
    simp only [aggregate]
    exact sortedDescBy_take cntLt _ 200 (sortDescBy_sorted cntLt cntLt_asymm _)
  · decide

end Feedback
